import Mathlib

/-!
Broadcast example: the `Server` registry and its notification thread.

A shallow embedding of `examples/feature/broadcast/BroadCast.C`: the `Server`
singleton (a counter, a stop flag and the vector of connections), its member
functions `connect`, `disconnect`, `getCount`, the body of the background
thread `Server::run`, and the `ClientWidget` constructor and destructor that
drive them.

Modelling conventions.
* A `Client *` is compared by address only, so a client is its address.
* A `std::function<void()>` is never called by `Server`; it is only stored and
  handed to `WServer::post`, so it is an uninterpreted tag.
* Every member function that takes `mutex_` holds it for its whole body, so
  member functions are atomic state transformers and an execution is a
  sequence of them.
* `stop_` is written by the destructor and tested by `run` without the mutex,
  so the write can land anywhere in an iteration of `run`: the destructor
  takes the position of the thread as an argument.
* `counter_` is an `int`: the increment is taken modulo `2^32` in two's
  complement, which is what the compilers the example is built with produce
  (the C++ standard leaves signed overflow undefined).
* Loop indices are `unsigned` in the source and natural numbers here: the
  registry holds fewer than `2^32` connections.
-/

namespace BroadCast

/-- Identity of a client, the address a `Client *` holds. -/
abbrev Client := Nat

/-- Value of a `std::function<void()>` stored in a connection.
`updateData w` is `bindSafe(&ClientWidget::updateData)` bound to widget `w`;
`other k` is any other callable. -/
inductive Callback where
  | updateData (widget : Client)
  | other (id : Nat)
  deriving DecidableEq, Repr

/-- The private `struct Connection` of `Server`. -/
structure Connection where
  sessionId : String
  client : Client
  function : Callback
  deriving DecidableEq, Repr

/-- Data members of `Server` (the mutex and the thread handle are accounted
for by atomicity of the member functions and by `Server.run`). -/
structure Server where
  counter_ : Int
  stop_ : Bool
  connections_ : List Connection
  deriving DecidableEq, Repr

/-- Largest value of an `int`. -/
def INT_MAX : Int := 2147483647

/-- Smallest value of an `int`. -/
def INT_MIN : Int := -2147483648

/-- Reduction of an integer to the 32-bit two's complement range. -/
def wrapInt (x : Int) : Int := (x + 2147483648) % 4294967296 - 2147483648

/-- The expression `++counter_` on an `int`. -/
def preIncrement (x : Int) : Int := wrapInt (x + 1)

/-- Result of a `void` member function: it returned, or it reached
`assert(false)`; either way `s` is the state of the server at that point. -/
inductive Outcome where
  | returned (s : Server)
  | assertFailed (s : Server)
  deriving DecidableEq, Repr

/-- State carried by an outcome. -/
def Outcome.state : Outcome → Server
  | .returned s => s
  | .assertFailed s => s

/-- Whether the outcome is a reached `assert(false)`. -/
def Outcome.isFatal : Outcome → Bool
  | .returned _ => false
  | .assertFailed _ => true

/-- What the thread of `Server::run` does that other threads can observe. -/
inductive Event where
  | lock
  | increment
  | post (sessionId : String) (function : Callback)
  | unlock
  deriving DecidableEq, Repr

namespace Server

/-- Constructor `Server()`: counter 0, stop flag clear, no connection. -/
def construct : Server :=
  { counter_ := 0, stop_ := false, connections_ := [] }

/-- Member `connect`: `push_back` of a connection built from the id of the
current session, the client and the function. There is no other statement in
the body. -/
def connect (s : Server) (sessionId : String) (client : Client)
    (function : Callback) : Outcome :=
  .returned { s with
    connections_ := s.connections_ ++ [Connection.mk sessionId client function] }

/-- The `for` loop of `disconnect`, started at index `i` with `rest` the
elements `connections_[i], connections_[i+1], ...`: the index of the first
element whose client is `client`, or `none` when the loop runs off the end. -/
def disconnectLoop (client : Client) : List Connection → Nat → Option Nat
  | [], _ => none
  | e :: rest, i =>
    if e.client = client then some i else disconnectLoop client rest (i + 1)

/-- Member `disconnect`: erase the element at the index the loop stops at and
return; when the loop ends without a match, `assert(false)`. -/
def disconnect (s : Server) (client : Client) : Outcome :=
  match disconnectLoop client s.connections_ 0 with
  | some i => .returned { s with connections_ := s.connections_.eraseIdx i }
  | none => .assertFailed s

/-- Member `getCount` (a `const` member): the counter, and the state it
leaves. -/
def getCount (s : Server) : Int × Server := (s.counter_, s)

/-- The `for` loop of `run` over `connections_[i], connections_[i+1], ...`:
one `WServer::post(c.sessionId, c.function)` per element. -/
def postLoop : List Connection → List Event
  | [] => []
  | c :: rest => Event.post c.sessionId c.function :: postLoop rest

end Server

/-- One iteration of the `for (;;)` of `Server::run`, from the moment
`sleep_for` returns: the state it leaves, the events it emits, and whether
`run` returned. -/
structure Cycle where
  state : Server
  trace : List Event
  returned : Bool
  deriving DecidableEq, Repr

namespace Server

/-- Body of the loop of `run` after the sleep: return when `stop_` is set;
otherwise take the mutex, increment the counter, post to every connection and
release the mutex at the end of the block. -/
def runCycle (s : Server) : Cycle :=
  if s.stop_ then
    { state := s, trace := [], returned := true }
  else
    { state := { s with counter_ := preIncrement s.counter_ },
      trace := [Event.lock, Event.increment] ++ postLoop s.connections_ ++ [Event.unlock],
      returned := false }

end Server

/-- Where the thread of `run` stands in its current iteration at the moment
another thread writes `stop_` (the write takes no mutex, and the test
`if (stop_)` is made outside the locked block).
`beforeTest`: in `sleep_for`, or woken and not yet at the test.
`afterTest k`: the test of this iteration was made before the write, and `k`
events of the iteration had been emitted when the write landed. -/
inductive RunPos where
  | beforeTest
  | afterTest (emitted : Nat)
  deriving DecidableEq, Repr

namespace Server

/-- Destructor `~Server()`: `stop_ = true; thread_.join()`. Here `s` is the
state at the start of the iteration the thread is in. The result is the state
when `join` returns and the events the thread emits between the write of
`stop_` and that return. Before the test the thread sees the flag and returns.
After the test the iteration runs to its end as it would without the write,
what it had not yet emitted coming after the write; the next test then sees
the flag. -/
def destruct (s : Server) : RunPos → Server × List Event
  | .beforeTest =>
    ((runCycle { s with stop_ := true }).state, (runCycle { s with stop_ := true }).trace)
  | .afterTest k =>
    ((runCycle { (runCycle s).state with stop_ := true }).state,
      (runCycle s).trace.drop k ++ (runCycle { (runCycle s).state with stop_ := true }).trace)

end Server

/-- The `(sessionId, function)` arguments of the post requests of a trace, in
order of issue. -/
def posts : List Event → List (String × Callback)
  | [] => []
  | Event.post sid f :: rest => (sid, f) :: posts rest
  | _ :: rest => posts rest

/-- Whether the mutex is held after the events of `t`, given whether it was
held before. -/
def heldAfter : Bool → List Event → Bool
  | held, [] => held
  | _, Event.lock :: rest => heldAfter true rest
  | _, Event.unlock :: rest => heldAfter false rest
  | held, _ :: rest => heldAfter held rest

/-- Whether some post request of the trace is issued while the mutex is held
(`held` says whether it is held at the start). -/
def postWhileHeld : Bool → List Event → Bool
  | _, [] => false
  | _, Event.lock :: rest => postWhileHeld true rest
  | _, Event.unlock :: rest => postWhileHeld false rest
  | held, Event.post _ _ :: rest => held || postWhileHeld held rest
  | held, Event.increment :: rest => postWhileHeld held rest

/-- Whether some post request of the trace is issued while the mutex is not
held. -/
def postWhileFree : Bool → List Event → Bool
  | _, [] => false
  | _, Event.lock :: rest => postWhileFree true rest
  | _, Event.unlock :: rest => postWhileFree false rest
  | held, Event.post _ _ :: rest => !held || postWhileFree held rest
  | held, Event.increment :: rest => postWhileFree held rest

/-- Post requests of one cycle that are made for an entry of client `c`: the
request of iteration `i` is made for `connections_[i]`. -/
def postsToClient (s : Server) (c : Client) : List (String × Callback) :=
  ((s.connections_.zip (posts s.runCycle.trace)).filter
    (fun p => decide (p.1.client = c))).map Prod.snd

/-- The clients of the registry, in registry order. -/
def clients (s : Server) : List Client := s.connections_.map Connection.client

/-- Whether the registry has an entry for client `c`. -/
def hasEntry (s : Server) (c : Client) : Prop := ∃ e ∈ s.connections_, e.client = c

instance (s : Server) (c : Client) : Decidable (hasEntry s c) :=
  inferInstanceAs (Decidable (∃ e ∈ s.connections_, e.client = c))

/-- Registry invariant: at most one entry per client. -/
def UniqueClients (s : Server) : Prop := (clients s).Nodup

instance (s : Server) : Decidable (UniqueClients s) :=
  inferInstanceAs (Decidable (clients s).Nodup)

namespace ClientWidget

/-- Member `updateData`: the value read from `server.getCount()` and shown as
the text of the widget. -/
def updateData (s : Server) : Int := s.getCount.1

end ClientWidget

/-- A post request together with the count its callback reads when it is run
at the moment the request is made. -/
structure Posted where
  sessionId : String
  function : Callback
  count : Int
  deriving DecidableEq, Repr

/-- The post requests of a cycle, each with the count read at that moment:
requests are made after the increment, in the same critical section. -/
def cyclePosted (r : Cycle) : List Posted :=
  (posts r.trace).map (fun p => Posted.mk p.1 p.2 (ClientWidget.updateData r.state))

/-- A call made on the server: by a session thread (`connect`, `disconnect`,
`getCount`) or by the background thread (one `cycle` of `run`). -/
inductive Op where
  | connect (sessionId : String) (client : Client) (function : Callback)
  | disconnect (client : Client)
  | getCount
  | cycle
  deriving DecidableEq, Repr

/-- What a sequence of calls has produced: the outcome of the last call
executed, the number of cycles that ran with the stop flag clear, and the post
requests made. -/
structure Exec where
  outcome : Outcome
  cycles : Nat
  posted : List Posted
  deriving DecidableEq, Repr

/-- One call on the server. -/
def applyOp (s : Server) : Op → Exec
  | .connect sid c f => Exec.mk (s.connect sid c f) 0 []
  | .disconnect c => Exec.mk (s.disconnect c) 0 []
  | .getCount => Exec.mk (.returned s.getCount.2) 0 []
  | .cycle =>
    Exec.mk (.returned s.runCycle.state) (if s.runCycle.returned then 0 else 1)
      (cyclePosted s.runCycle)

/-- A sequence of calls, in order; a reached `assert(false)` ends it (a build
without `NDEBUG` aborts the process there). -/
def runOps : Server → List Op → Exec
  | s, [] => Exec.mk (.returned s) 0 []
  | s, op :: rest =>
    match (applyOp s op).outcome with
    | .returned s1 =>
      Exec.mk (runOps s1 rest).outcome ((applyOp s op).cycles + (runOps s1 rest).cycles)
        ((applyOp s op).posted ++ (runOps s1 rest).posted)
    | .assertFailed s1 =>
      Exec.mk (.assertFailed s1) (applyOp s op).cycles (applyOp s op).posted

namespace ClientWidget

/-- Constructor `ClientWidget()` of the widget at address `this` in session
`sessionId`: `server.connect(this, bindSafe(&ClientWidget::updateData))`, then
`updateData()`, which calls `getCount`. -/
def construct (sessionId : String) (this : Client) : List Op :=
  [Op.connect sessionId this (Callback.updateData this), Op.getCount]

/-- Destructor `~ClientWidget()`: `server.disconnect(this)`. -/
def destruct (this : Client) : List Op := [Op.disconnect this]

end ClientWidget

/-- The counts widget `w` was notified with: those of the post requests whose
function is its `updateData`. -/
def invocations (w : Client) (log : List Posted) : List Int :=
  (log.filter (fun p => decide (p.function = Callback.updateData w))).map Posted.count

/-- Lifecycle discipline on a sequence of calls, given the clients connected
and disconnected so far: a client is connected at most once, disconnected at
most once, and disconnected only after it was connected. -/
def lifecycle (connected disconnected : List Client) : List Op → Bool
  | [] => true
  | Op.connect _ c _ :: rest =>
    decide (c ∉ connected) && lifecycle (c :: connected) disconnected rest
  | Op.disconnect c :: rest =>
    decide (c ∈ connected) && decide (c ∉ disconnected) &&
      lifecycle connected (c :: disconnected) rest
  | _ :: rest => lifecycle connected disconnected rest

/-- A running server with two connections of distinct clients. -/
def twoClients : Server :=
  { counter_ := 0, stop_ := false,
    connections_ := [Connection.mk "s1" 1 (Callback.updateData 1),
                     Connection.mk "s2" 2 (Callback.updateData 2)] }

/-- A server on which the destructor has set the stop flag. -/
def stoppedServer : Server :=
  { counter_ := 5, stop_ := true,
    connections_ := [Connection.mk "s1" 1 (Callback.updateData 1)] }

/-- A running server whose counter holds the largest `int`. -/
def atIntMax : Server :=
  { counter_ := INT_MAX, stop_ := false, connections_ := [] }

/-- Three widgets are created in sessions `s1`, `s2`, `s3`; the thread wakes
up once; widget 2 is deleted; the thread wakes up twice more. -/
def detachScenario (sid1 sid2 sid3 : String) : List Op :=
  ClientWidget.construct sid1 1 ++ ClientWidget.construct sid2 2 ++
    ClientWidget.construct sid3 3 ++ [Op.cycle] ++ ClientWidget.destruct 2 ++
    [Op.cycle, Op.cycle]

end BroadCast

namespace BroadCast
open Server

theorem posts_postLoop (l : List Connection) :
    posts (postLoop l) = l.map (fun e => (e.sessionId, e.function)) := by
  induction l with
  | nil => rfl
  | cons e rest ih => simp [postLoop, posts, ih]

theorem runCycle_running (s : Server) (h : s.stop_ = false) :
    s.runCycle = { state := { s with counter_ := preIncrement s.counter_ },
                   trace := [Event.lock, Event.increment] ++ postLoop s.connections_ ++ [Event.unlock],
                   returned := false } := by
  simp [runCycle, h]

theorem posts_append (a b : List Event) : posts (a ++ b) = posts a ++ posts b := by
  induction a with
  | nil => rfl
  | cons e rest ih => cases e <;> simp [posts, ih]

theorem posts_runCycle (s : Server) (h : s.stop_ = false) :
    posts s.runCycle.trace = s.connections_.map (fun e => (e.sessionId, e.function)) := by
  rw [runCycle_running s h]
  simp [posts_append, posts, posts_postLoop]

theorem zip_filter_map (l : List Connection) (c : Client) :
    ((l.zip (l.map (fun e => (e.sessionId, e.function)))).filter
      (fun p => decide (p.1.client = c))).map Prod.snd
    = (l.filter (fun e => decide (e.client = c))).map (fun e => (e.sessionId, e.function)) := by
  induction l with
  | nil => rfl
  | cons e rest ih =>
    by_cases hc : e.client = c
    · simp [List.filter_cons, hc, ih]
    · simp [List.filter_cons, hc, ih]

theorem length_filter_client (l : List Connection) (c : Client) :
    (l.filter (fun e => decide (e.client = c))).length = (l.map Connection.client).count c := by
  induction l with
  | nil => rfl
  | cons e rest ih =>
    by_cases hc : e.client = c
    · simp [List.filter_cons, hc, ih]
    · simp [List.filter_cons, hc, ih, List.count_cons]

theorem postsToClient_length (s : Server) (h : s.stop_ = false) (c : Client) :
    (postsToClient s c).length = (clients s).count c := by
  unfold postsToClient
  rw [posts_runCycle s h, zip_filter_map, List.length_map, length_filter_client]
  rfl

theorem hasEntry_iff (s : Server) (c : Client) : hasEntry s c ↔ c ∈ clients s := by
  simp [hasEntry, clients]

/-- Claim C1. In every state with the stop flag clear, one cycle of
`Server::run` posts exactly once per entry of `connections_`: the
`(sessionId, function)` pairs posted are those of the entries, in registry
order, so there are as many posts as entries; and when no two entries share a
client, a client with an entry is posted to exactly once and a client with no
entry not at all. -/
theorem run_cycle_posts_once_per_entry (s : Server) (h : s.stop_ = false) :
    posts s.runCycle.trace = s.connections_.map (fun e => (e.sessionId, e.function)) ∧
    (posts s.runCycle.trace).length = s.connections_.length ∧
    (UniqueClients s → ∀ c : Client,
      (hasEntry s c → (postsToClient s c).length = 1) ∧
      (¬ hasEntry s c → (postsToClient s c).length = 0)) := by
  refine ⟨posts_runCycle s h, ?_, ?_⟩
  · rw [posts_runCycle s h, List.length_map]
  · intro hu c
    rw [postsToClient_length s h c, hasEntry_iff]
    constructor
    · intro hm
      exact List.count_eq_one_of_mem hu hm
    · intro hm
      exact List.count_eq_zero_of_not_mem hm


/-- Claim C1 at a server with two connections: both are posted to, once each,
and client 9, which has no entry, is not. -/
theorem run_cycle_posts_once_per_entry_witness :
    twoClients.stop_ = false ∧ UniqueClients twoClients ∧ hasEntry twoClients 2 ∧
    ¬ hasEntry twoClients 9 ∧
    posts twoClients.runCycle.trace
      = twoClients.connections_.map (fun e => (e.sessionId, e.function)) ∧
    (postsToClient twoClients 2).length = 1 ∧ (postsToClient twoClients 9).length = 0 :=
  ⟨rfl, by decide, by decide, by decide,
    (run_cycle_posts_once_per_entry twoClients rfl).1,
    ((run_cycle_posts_once_per_entry twoClients rfl).2.2 (by decide) 2).1 (by decide),
    ((run_cycle_posts_once_per_entry twoClients rfl).2.2 (by decide) 9).2 (by decide)⟩

theorem disconnectLoop_none (c : Client) (l : List Connection) (i : Nat) :
    disconnectLoop c l i = none ↔ ∀ e ∈ l, e.client ≠ c := by
  induction l generalizing i with
  | nil => simp [disconnectLoop]
  | cons e rest ih =>
    by_cases hc : e.client = c
    · simp [disconnectLoop, hc]
    · simp [disconnectLoop, hc, ih]

theorem disconnectLoop_some (c : Client) (l : List Connection) (i j : Nat)
    (h : disconnectLoop c l i = some j) :
    i ≤ j ∧ j - i < l.length ∧ (l.eraseIdx (j - i)).Sublist l ∧
      ((l.map Connection.client).Nodup →
        l.eraseIdx (j - i) = l.filter (fun e => decide (e.client ≠ c))) := by
  induction l generalizing i with
  | nil => simp [disconnectLoop] at h
  | cons e rest ih =>
    by_cases hc : e.client = c
    · simp [disconnectLoop, hc] at h
      subst h
      refine ⟨le_refl _, by simp, by simp, ?_⟩
      intro hn
      have hnot : ∀ x ∈ rest, x.client ≠ c := by
        intro x hx hxc
        rw [List.map_cons, List.nodup_cons] at hn
        apply hn.1
        rw [hc, ← hxc]
        exact List.mem_map_of_mem _ hx
      simp only [Nat.sub_self, List.eraseIdx_cons_zero]
      rw [List.filter_cons_of_neg (by simp [hc])]
      symm
      rw [List.filter_eq_self]
      intro x hx
      simpa using hnot x hx
    · simp [disconnectLoop, hc] at h
      obtain ⟨h1, h2, h3, h4⟩ := ih (i + 1) h
      have hji : j - i = (j - (i + 1)) + 1 := by omega
      refine ⟨by omega, ?_, ?_, ?_⟩
      · rw [hji]; simpa using h2
      · rw [hji, List.eraseIdx_cons_succ]
        exact h3.cons₂ e
      · intro hn
        rw [hji, List.eraseIdx_cons_succ, List.filter_cons_of_pos (by simp [hc])]
        rw [List.map_cons, List.nodup_cons] at hn
        rw [h4 hn.2]

theorem disconnect_of_entry (s : Server) (c : Client) (h : hasEntry s c) :
    ∃ j, j < s.connections_.length ∧ disconnectLoop c s.connections_ 0 = some j ∧
      s.disconnect c = .returned { s with connections_ := s.connections_.eraseIdx j } := by
  cases hl : disconnectLoop c s.connections_ 0 with
  | none =>
    obtain ⟨e, he, hec⟩ := h
    exact absurd hec ((disconnectLoop_none c _ 0).mp hl e he)
  | some j =>
    refine ⟨j, ?_, rfl, ?_⟩
    · simpa using (disconnectLoop_some c _ 0 j hl).2.1
    · simp [disconnect, hl]

theorem disconnect_of_no_entry (s : Server) (c : Client) (h : ¬ hasEntry s c) :
    s.disconnect c = .assertFailed s := by
  have hl : disconnectLoop c s.connections_ 0 = none := by
    rw [disconnectLoop_none]
    intro e he hec
    exact h ⟨e, he, hec⟩
  simp [disconnect, hl]

/-- Claim C2. When no two entries share a client and `c` has an entry,
`disconnect(c)` returns normally and leaves the registry with the entry of `c`
removed: no entry for `c` remains, every other entry is kept unchanged and in
the same relative order, exactly one entry is gone, and `counter_` and `stop_`
are unchanged. -/
theorem disconnect_removes_entry (s : Server) (c : Client)
    (hu : UniqueClients s) (hc : hasEntry s c) :
    s.disconnect c = .returned
      { counter_ := s.counter_, stop_ := s.stop_,
        connections_ := s.connections_.filter (fun e => decide (e.client ≠ c)) } ∧
    (∀ e ∈ (s.disconnect c).state.connections_, e.client ≠ c) ∧
    (∀ e ∈ s.connections_, e.client ≠ c → e ∈ (s.disconnect c).state.connections_) ∧
    (s.disconnect c).state.connections_.Sublist s.connections_ ∧
    (s.disconnect c).state.connections_.length + 1 = s.connections_.length ∧
    (s.disconnect c).state.counter_ = s.counter_ ∧
    (s.disconnect c).state.stop_ = s.stop_ := by
  obtain ⟨j, hj, hl, hd⟩ := disconnect_of_entry s c hc
  have hf := (disconnectLoop_some c _ 0 j hl).2.2.2 hu
  simp only [Nat.sub_zero] at hf
  have hd2 : s.disconnect c = .returned
      { counter_ := s.counter_, stop_ := s.stop_,
        connections_ := s.connections_.filter (fun e => decide (e.client ≠ c)) } := by
    rw [hd, hf]
  refine ⟨hd2, ?_, ?_, ?_, ?_, ?_, ?_⟩
  · rw [hd2]; intro e he; simpa [Outcome.state] using (List.mem_filter.mp he).2
  · rw [hd2]; intro e he hne; exact List.mem_filter.mpr ⟨he, by simpa using hne⟩
  · rw [hd2]; exact List.filter_sublist _
  · rw [hd]; simp [Outcome.state, List.length_eraseIdx, hj]; omega
  · rw [hd2]; rfl
  · rw [hd2]; rfl

/-- Claim C2 at a server with two connections: disconnecting client 2 leaves
the connection of client 1 alone. -/
theorem disconnect_removes_entry_witness :
    UniqueClients twoClients ∧ hasEntry twoClients 2 ∧
    twoClients.disconnect 2 = .returned
      { counter_ := 0, stop_ := false,
        connections_ := [Connection.mk "s1" 1 (Callback.updateData 1)] } :=
  ⟨by decide, by decide, (disconnect_removes_entry twoClients 2 (by decide) (by decide)).1⟩

/-- Claim C3. The member `disconnect(c)` reaches `assert(false)` if and only if
the registry holds no entry whose client is `c`; in that case the state at the
assertion is the state before the call (`connections_`, `counter_` and `stop_`
unchanged), and whenever an entry for `c` exists the call returns without
reaching the assertion. -/
theorem disconnect_assert_iff_no_entry (s : Server) (c : Client) :
    ((s.disconnect c).isFatal = true ↔ ¬ hasEntry s c) ∧
    (¬ hasEntry s c → s.disconnect c = .assertFailed s) ∧
    (hasEntry s c → ∃ s1, s.disconnect c = .returned s1) := by
  have h2 : ¬ hasEntry s c → s.disconnect c = .assertFailed s := disconnect_of_no_entry s c
  have h3 : hasEntry s c → ∃ s1, s.disconnect c = .returned s1 := by
    intro h
    obtain ⟨j, _, _, hd⟩ := disconnect_of_entry s c h
    exact ⟨_, hd⟩
  refine ⟨⟨?_, ?_⟩, h2, h3⟩
  · intro hf he
    obtain ⟨s1, hs1⟩ := h3 he
    rw [hs1] at hf
    simp [Outcome.isFatal] at hf
  · intro hn
    rw [h2 hn]
    rfl


/-- Claim C3 at a server with two connections: client 9 has no entry and the
assertion is reached with the state unchanged; client 1 has one and the call
returns. -/
theorem disconnect_assert_iff_no_entry_witness :
    ¬ hasEntry twoClients 9 ∧ twoClients.disconnect 9 = .assertFailed twoClients ∧
    hasEntry twoClients 1 ∧ (twoClients.disconnect 1).isFatal = false :=
  ⟨by decide, (disconnect_assert_iff_no_entry twoClients 9).2.1 (by decide),
    by decide, by decide⟩

/-- Claim C4 fails as stated: client 2 already has an entry, yet `connect`
for client 2 returns normally and the registry then holds two entries for
client 2. -/
theorem connect_double_attach_counterexample :
    hasEntry twoClients 2 ∧
    (twoClients.connect "s3" 2 (Callback.other 0)).isFatal = false ∧
    (twoClients.connect "s3" 2 (Callback.other 0)).state.connections_ =
      [Connection.mk "s1" 1 (Callback.updateData 1),
       Connection.mk "s2" 2 (Callback.updateData 2),
       Connection.mk "s3" 2 (Callback.other 0)] := by
  refine ⟨?_, rfl, rfl⟩
  exact ⟨Connection.mk "s2" 2 (Callback.updateData 2), by simp [twoClients], rfl⟩

/-- Claim C4, amended. The member `connect` never signals a fatal error: in
every state it returns normally having appended the new entry, so the number of
entries for `c` grows by one; when `c` already had an entry the registry then
holds at least two entries for `c` and the one-entry-per-client invariant is
broken. -/
theorem connect_never_fatal (s : Server) (sid : String) (c : Client) (f : Callback) :
    (s.connect sid c f).isFatal = false ∧
    (s.connect sid c f).state.connections_ = s.connections_ ++ [Connection.mk sid c f] ∧
    (clients (s.connect sid c f).state).count c = (clients s).count c + 1 ∧
    (hasEntry s c → 2 ≤ (clients (s.connect sid c f).state).count c ∧
      ¬ UniqueClients (s.connect sid c f).state) := by
  have hcount : (clients (s.connect sid c f).state).count c = (clients s).count c + 1 := by
    simp [connect, Outcome.state, clients]
  refine ⟨rfl, rfl, hcount, ?_⟩
  intro he
  have hpos : 0 < (clients s).count c := List.count_pos_iff.mpr ((hasEntry_iff s c).mp he)
  have h2 : 2 ≤ (clients (s.connect sid c f).state).count c := by omega
  refine ⟨h2, ?_⟩
  intro hu
  have := List.nodup_iff_count_le_one.mp hu c
  omega

/-- Claim C4 (amended) at a server where client 2 is already connected. -/
theorem connect_never_fatal_witness :
    hasEntry twoClients 2 ∧
    (twoClients.connect "s3" 2 (Callback.other 0)).isFatal = false ∧
    2 ≤ (clients (twoClients.connect "s3" 2 (Callback.other 0)).state).count 2 ∧
    ¬ UniqueClients (twoClients.connect "s3" 2 (Callback.other 0)).state :=
  ⟨by decide, (connect_never_fatal twoClients "s3" 2 (Callback.other 0)).1,
    (connect_never_fatal twoClients "s3" 2 (Callback.other 0)).2.2.2 (by decide)⟩

theorem postWhileHeld_postLoop (l : List Connection) (rest : List Event) :
    postWhileHeld true (postLoop l ++ rest) = (!l.isEmpty || postWhileHeld true rest) := by
  induction l with
  | nil => simp [postLoop]
  | cons e l ih => simp [postLoop, postWhileHeld]

theorem postWhileFree_postLoop (l : List Connection) (rest : List Event) :
    postWhileFree true (postLoop l ++ rest) = postWhileFree true rest := by
  induction l with
  | nil => simp [postLoop]
  | cons e l ih => simp [postLoop, postWhileFree, ih]

theorem heldAfter_postLoop (b : Bool) (l : List Connection) (rest : List Event) :
    heldAfter b (postLoop l ++ rest) = heldAfter b rest := by
  induction l with
  | nil => simp [postLoop]
  | cons e l ih => simp [postLoop, heldAfter, ih]

/-- Claim C5 fails as stated: in the cycle of a server with two connections the
two post requests lie between the acquisition and the release of the mutex. -/
theorem run_cycle_posts_under_lock_counterexample :
    twoClients.runCycle.trace =
      [Event.lock, Event.increment, Event.post "s1" (Callback.updateData 1),
       Event.post "s2" (Callback.updateData 2), Event.unlock] ∧
    postWhileHeld false twoClients.runCycle.trace = true := by
  constructor <;> rfl

/-- Claim C5, amended. Every post request of a cycle of `Server::run` is
issued while the mutex is held: the trace of a cycle with the stop flag clear
is lock, increment, one post per entry, unlock; no post occurs while the mutex
is free, the mutex is released when the cycle ends, a non-empty registry gives
a post under the lock, and an empty registry gives no post at all. -/
theorem run_cycle_posts_while_locked (s : Server) (h : s.stop_ = false) :
    s.runCycle.trace =
      Event.lock :: Event.increment :: (postLoop s.connections_ ++ [Event.unlock]) ∧
    postWhileFree false s.runCycle.trace = false ∧
    heldAfter false s.runCycle.trace = false ∧
    (s.connections_ ≠ [] → postWhileHeld false s.runCycle.trace = true) ∧
    (s.connections_ = [] → posts s.runCycle.trace = []) := by
  have ht : s.runCycle.trace =
      Event.lock :: Event.increment :: (postLoop s.connections_ ++ [Event.unlock]) := by
    rw [runCycle_running s h]; simp
  refine ⟨ht, ?_, ?_, ?_, ?_⟩
  · rw [ht]; simp [postWhileFree, postWhileFree_postLoop]
  · rw [ht]; simp [heldAfter, heldAfter_postLoop]
  · intro hne
    rw [ht]
    simp [postWhileHeld, postWhileHeld_postLoop, hne]
  · intro he
    rw [posts_runCycle s h, he]; rfl


/-- Claim C5 (amended) at a server with two connections. -/
theorem run_cycle_posts_while_locked_witness :
    twoClients.stop_ = false ∧ twoClients.connections_ ≠ [] ∧
    postWhileFree false twoClients.runCycle.trace = false ∧
    heldAfter false twoClients.runCycle.trace = false ∧
    postWhileHeld false twoClients.runCycle.trace = true :=
  ⟨rfl, by decide, (run_cycle_posts_while_locked twoClients rfl).2.1,
    (run_cycle_posts_while_locked twoClients rfl).2.2.1,
    (run_cycle_posts_while_locked twoClients rfl).2.2.2.1 (by decide)⟩

theorem runCycle_stopped (s : Server) (h : s.stop_ = true) :
    s.runCycle = { state := s, trace := [], returned := true } := by
  simp [runCycle, h]

theorem disconnect_state_fields (s : Server) (c : Client) :
    (s.disconnect c).state.counter_ = s.counter_ ∧ (s.disconnect c).state.stop_ = s.stop_ := by
  unfold disconnect
  cases disconnectLoop c s.connections_ 0 <;> simp [Outcome.state]

theorem applyOp_stop (s : Server) (op : Op) :
    (applyOp s op).outcome.state.stop_ = s.stop_ := by
  cases op with
  | connect sid c f => rfl
  | disconnect c => exact (disconnect_state_fields s c).2
  | getCount => rfl
  | cycle =>
    cases h : s.stop_ with
    | true => simp [applyOp, runCycle_stopped s h, Outcome.state, h]
    | false => simp [applyOp, runCycle_running s h, Outcome.state, h]

theorem runOps_cons (s : Server) (op : Op) (rest : List Op) :
    runOps s (op :: rest) =
      match (applyOp s op).outcome with
      | .returned s1 =>
        Exec.mk (runOps s1 rest).outcome ((applyOp s op).cycles + (runOps s1 rest).cycles)
          ((applyOp s op).posted ++ (runOps s1 rest).posted)
      | .assertFailed s1 =>
        Exec.mk (.assertFailed s1) (applyOp s op).cycles (applyOp s op).posted := rfl

theorem preIncrement_in_range (x : Int) (hlo : INT_MIN ≤ x) (hhi : x + 1 ≤ INT_MAX) :
    preIncrement x = x + 1 := by
  unfold preIncrement wrapInt
  unfold INT_MIN at hlo
  unfold INT_MAX at hhi
  omega

theorem applyOp_counter (s : Server) (op : Op) (hlo : INT_MIN ≤ s.counter_)
    (hhi : s.counter_ + (applyOp s op).cycles ≤ INT_MAX) :
    (applyOp s op).outcome.state.counter_ = s.counter_ + (applyOp s op).cycles := by
  cases op with
  | connect sid c f => simp [applyOp, connect, Outcome.state]
  | disconnect c => simp [applyOp, (disconnect_state_fields s c).1]
  | getCount => simp [applyOp, getCount, Outcome.state]
  | cycle =>
    cases h : s.stop_ with
    | true => simp [applyOp, runCycle_stopped s h, Outcome.state]
    | false =>
      simp only [applyOp, runCycle_running s h, Outcome.state] at hhi ⊢
      simp only [Bool.false_eq_true, if_false, Nat.cast_one] at hhi ⊢
      exact preIncrement_in_range _ hlo hhi

theorem runOps_counter (s : Server) (ops : List Op) (hlo : INT_MIN ≤ s.counter_)
    (hhi : s.counter_ + (runOps s ops).cycles ≤ INT_MAX) :
    (runOps s ops).outcome.state.counter_ = s.counter_ + (runOps s ops).cycles := by
  induction ops generalizing s with
  | nil => simp [runOps, Outcome.state]
  | cons op rest ih =>
    rw [runOps_cons] at hhi ⊢
    cases ho : (applyOp s op).outcome with
    | returned s1 =>
      rw [ho] at hhi
      simp only [Nat.cast_add] at hhi ⊢
      have hc := applyOp_counter s op hlo (by
        have : (0 : Int) ≤ ((runOps s1 rest).cycles : Int) := Int.ofNat_nonneg _
        omega)
      rw [ho] at hc
      simp only [Outcome.state] at hc
      have hge : (0 : Int) ≤ ((applyOp s op).cycles : Int) := Int.ofNat_nonneg _
      have := ih s1 (by omega) (by omega)
      rw [this, hc]
      omega
    | assertFailed s1 =>
      rw [ho] at hhi
      simp only at hhi ⊢
      have hc := applyOp_counter s op hlo hhi
      rw [ho] at hc
      exact hc

theorem applyOp_cycles (s : Server) (h : s.stop_ = false) (op : Op) :
    (applyOp s op).cycles = [op].count Op.cycle := by
  cases op with
  | connect sid c f => rfl
  | disconnect c => rfl
  | getCount => rfl
  | cycle => simp [applyOp, runCycle_running s h]

theorem runOps_cycles (s : Server) (h : s.stop_ = false) (ops : List Op)
    (hok : (runOps s ops).outcome.isFatal = false) :
    (runOps s ops).cycles = ops.count Op.cycle := by
  induction ops generalizing s with
  | nil => rfl
  | cons op rest ih =>
    rw [runOps_cons] at hok ⊢
    have h2 := applyOp_stop s op
    cases ho : (applyOp s op).outcome with
    | returned s1 =>
      rw [ho] at hok h2
      simp only [Outcome.state] at h2
      simp only at hok ⊢
      rw [ih s1 (by rw [h2, h]) hok, applyOp_cycles s h op]
      rw [show op :: rest = [op] ++ rest from rfl, List.count_append]
    | assertFailed s1 =>
      rw [ho] at hok
      simp [Outcome.isFatal] at hok

/-- Claim C7 fails as stated: from the counter value `2147483647`, after one
completed cycle `getCount` returns `-2147483648`, not `2147483647 + 1`. -/
theorem getCount_overflow_counterexample :
    atIntMax.getCount.1 = 2147483647 ∧
    (runOps atIntMax [Op.cycle]).cycles = 1 ∧
    (runOps atIntMax [Op.cycle]).outcome.isFatal = false ∧
    (runOps atIntMax [Op.cycle]).outcome.state.getCount.1 = -2147483648 ∧
    (runOps atIntMax [Op.cycle]).outcome.state.getCount.1 ≠ 2147483647 + 1 := by
  decide

/-- Claim C7, amended. For every initial counter value `v` of an `int` and every
sequence of calls (`connect`, `disconnect`, `getCount` and cycles of `run`) in
which `N` cycles complete, provided `v + N` does not exceed `INT_MAX`,
`getCount` then returns `v + N`; with the stop flag clear and no assertion
reached, `N` is the number of cycles in the sequence. The call `getCount`
changes no state, a fresh server returns 0, and after three cycles it
returns 3. -/
theorem getCount_after_cycles (s : Server) (ops : List Op)
    (hlo : INT_MIN ≤ s.counter_)
    (hhi : s.counter_ + (runOps s ops).cycles ≤ INT_MAX) :
    s.getCount.1 = s.counter_ ∧
    (runOps s ops).outcome.state.getCount.1 = s.counter_ + (runOps s ops).cycles ∧
    (s.stop_ = false → (runOps s ops).outcome.isFatal = false →
      (runOps s ops).cycles = ops.count Op.cycle) ∧
    (∀ t : Server, t.getCount.2 = t) ∧
    Server.construct.getCount.1 = 0 ∧
    (runOps Server.construct [Op.cycle, Op.cycle, Op.cycle]).outcome.state.getCount.1 = 3 := by
  refine ⟨rfl, runOps_counter s ops hlo hhi, fun h hok => runOps_cycles s h ops hok,
    fun _ => rfl, rfl, by decide⟩


/-- Claim C7 (amended) on a fresh server, with calls between the cycles. -/
theorem getCount_after_cycles_witness :
    INT_MIN ≤ Server.construct.counter_ ∧
    Server.construct.counter_ +
      (runOps Server.construct (detachScenario "s1" "s2" "s3")).cycles ≤ INT_MAX ∧
    (runOps Server.construct (detachScenario "s1" "s2" "s3")).outcome.state.getCount.1
      = Server.construct.counter_ +
        (runOps Server.construct (detachScenario "s1" "s2" "s3")).cycles :=
  ⟨by decide, by decide,
    (getCount_after_cycles Server.construct (detachScenario "s1" "s2" "s3")
      (by decide) (by decide)).2.1⟩

/-- Claim C8 fails as stated: in the scenario, subscriber 2 is notified once,
with the value 1, not twice with the values 1 and 2. -/
theorem detach_scenario_counterexample :
    invocations 2 (runOps Server.construct (detachScenario "s1" "s2" "s3")).posted = [1] ∧
    (invocations 2 (runOps Server.construct (detachScenario "s1" "s2" "s3")).posted).length ≠ 2 ∧
    invocations 2 (runOps Server.construct (detachScenario "s1" "s2" "s3")).posted ≠ [1, 2] := by
  decide

/-- Claim C8, amended. From a fresh server with subscribers 1, 2, 3 connected,
the sequence cycle, disconnect of subscriber 2, cycle, cycle runs without a
failed assertion and completes three cycles; each posted callback reading
`getCount` when it is posted, subscriber 2 has received exactly one invocation
(value 1) and subscribers 1 and 3 three each (values 1, 2, 3 in order). -/
theorem detach_scenario_invocations (sid1 sid2 sid3 : String) :
    (runOps Server.construct (detachScenario sid1 sid2 sid3)).outcome.isFatal = false ∧
    (runOps Server.construct (detachScenario sid1 sid2 sid3)).cycles = 3 ∧
    (runOps Server.construct (detachScenario sid1 sid2 sid3)).outcome.state.getCount.1 = 3 ∧
    invocations 2 (runOps Server.construct (detachScenario sid1 sid2 sid3)).posted = [1] ∧
    invocations 1 (runOps Server.construct (detachScenario sid1 sid2 sid3)).posted = [1, 2, 3] ∧
    invocations 3 (runOps Server.construct (detachScenario sid1 sid2 sid3)).posted = [1, 2, 3] := by
  refine ⟨rfl, rfl, rfl, ?_, ?_, ?_⟩ <;> rfl

theorem postLoop_append (a b : List Connection) :
    postLoop (a ++ b) = postLoop a ++ postLoop b := by
  induction a with
  | nil => rfl
  | cons e rest ih => simp [postLoop, ih]

/-- Claim C9. In every state, stopped or not, the member `connect(c, f)`
returns normally having appended exactly one entry (current session id, `c`,
`f`) at the end of `connections_`, and leaves the existing entries, `counter_`
and `stop_` unchanged; when the stop flag is clear, the very next cycle of
`run` does not return and posts `(session id, f)` for the new entry, after the
posts of the entries that were there before. -/
theorem connect_appends_and_is_posted (s : Server) (sid : String) (c : Client)
    (f : Callback) :
    s.connect sid c f = .returned
      { counter_ := s.counter_, stop_ := s.stop_,
        connections_ := s.connections_ ++ [Connection.mk sid c f] } ∧
    (s.connect sid c f).state.connections_.length = s.connections_.length + 1 ∧
    (s.connect sid c f).state.connections_.take s.connections_.length = s.connections_ ∧
    (s.connect sid c f).state.connections_.drop s.connections_.length
      = [Connection.mk sid c f] ∧
    (s.connect sid c f).state.counter_ = s.counter_ ∧
    (s.connect sid c f).state.stop_ = s.stop_ ∧
    (s.stop_ = false →
      (s.connect sid c f).state.runCycle.returned = false ∧
      posts (s.connect sid c f).state.runCycle.trace = posts s.runCycle.trace ++ [(sid, f)] ∧
      Event.post sid f ∈ (s.connect sid c f).state.runCycle.trace ∧
      postsToClient (s.connect sid c f).state c = postsToClient s c ++ [(sid, f)]) := by
  refine ⟨rfl, ?_, ?_, ?_, rfl, rfl, ?_⟩
  · simp [connect, Outcome.state]
  · simp [connect, Outcome.state]
  · simp [connect, Outcome.state]
  · intro h
    have hs : (s.connect sid c f).state.stop_ = false := h
    refine ⟨?_, ?_, ?_, ?_⟩
    · rw [runCycle_running _ hs]
    · rw [posts_runCycle _ hs, posts_runCycle s h]
      simp [connect, Outcome.state]
    · rw [runCycle_running _ hs]
      simp [connect, Outcome.state, postLoop_append, postLoop]
    · unfold postsToClient
      rw [posts_runCycle _ hs, posts_runCycle s h, zip_filter_map, zip_filter_map]
      simp [connect, Outcome.state, List.filter_append]

/-- Claim C9 at a running server with two connections to which client 3
connects, and at a stopped server, where the entry is appended all the same. -/
theorem connect_appends_and_is_posted_witness :
    twoClients.stop_ = false ∧
    posts (twoClients.connect "s3" 3 (Callback.updateData 3)).state.runCycle.trace
      = posts twoClients.runCycle.trace ++ [("s3", Callback.updateData 3)] ∧
    Event.post "s3" (Callback.updateData 3)
      ∈ (twoClients.connect "s3" 3 (Callback.updateData 3)).state.runCycle.trace ∧
    (stoppedServer.connect "s3" 3 (Callback.updateData 3)).state.connections_.drop
        stoppedServer.connections_.length
      = [Connection.mk "s3" 3 (Callback.updateData 3)] :=
  ⟨rfl,
    ((connect_appends_and_is_posted twoClients "s3" 3 (Callback.updateData 3)).2.2.2.2.2.2
      rfl).2.1,
    ((connect_appends_and_is_posted twoClients "s3" 3 (Callback.updateData 3)).2.2.2.2.2.2
      rfl).2.2.1,
    (connect_appends_and_is_posted stoppedServer "s3" 3 (Callback.updateData 3)).2.2.2.1⟩

theorem connect_unique (s : Server) (sid : String) (c : Client) (f : Callback)
    (hu : UniqueClients s) (hn : ¬ hasEntry s c) :
    UniqueClients (s.connect sid c f).state := by
  rw [hasEntry_iff] at hn
  unfold UniqueClients clients at *
  simp only [connect, Outcome.state, List.map_append, List.map_cons, List.map_nil]
  rw [List.nodup_append]
  refine ⟨hu, List.nodup_singleton _, ?_⟩
  intro a ha hb
  rw [List.mem_singleton] at hb
  subst hb
  exact hn ha

theorem disconnect_sublist (s : Server) (c : Client) :
    (s.disconnect c).state.connections_.Sublist s.connections_ := by
  unfold disconnect
  cases hl : disconnectLoop c s.connections_ 0 with
  | none => exact List.Sublist.refl _
  | some j =>
    have := (disconnectLoop_some c _ 0 j hl).2.2.1
    simpa [Outcome.state] using this

theorem disconnect_unique (s : Server) (c : Client) (hu : UniqueClients s) :
    UniqueClients (s.disconnect c).state := by
  unfold UniqueClients clients at *
  exact List.Nodup.sublist ((disconnect_sublist s c).map _) hu

theorem hasEntry_connect (s : Server) (sid : String) (c : Client) (f : Callback)
    (d : Client) : hasEntry (s.connect sid c f).state d ↔ hasEntry s d ∨ d = c := by
  simp only [hasEntry_iff, clients, connect, Outcome.state, List.map_append, List.mem_append,
    List.map_cons, List.map_nil, List.mem_singleton]

theorem hasEntry_disconnect (s : Server) (c : Client) (hu : UniqueClients s)
    (hc : hasEntry s c) (d : Client) :
    hasEntry (s.disconnect c).state d ↔ hasEntry s d ∧ d ≠ c := by
  obtain ⟨j, _, hl, hd⟩ := disconnect_of_entry s c hc
  have hf := (disconnectLoop_some c _ 0 j hl).2.2.2 hu
  simp only [Nat.sub_zero] at hf
  rw [hd, hf]
  simp only [hasEntry, Outcome.state, List.mem_filter]
  constructor
  · rintro ⟨e, ⟨he, hne⟩, hed⟩
    refine ⟨⟨e, he, hed⟩, ?_⟩
    rw [← hed]; simpa using hne
  · rintro ⟨⟨e, he, hed⟩, hne⟩
    refine ⟨e, ⟨he, ?_⟩, hed⟩
    rw [hed]; simpa using hne

theorem lifecycle_runOps (ops : List Op) :
    ∀ (conn disc : List Client) (s : Server), lifecycle conn disc ops = true →
      UniqueClients s → (∀ d, hasEntry s d ↔ d ∈ conn ∧ d ∉ disc) → (∀ d ∈ disc, d ∈ conn) →
      ∀ n : Nat, UniqueClients (runOps s (ops.take n)).outcome.state ∧
        (runOps s (ops.take n)).outcome.isFatal = false := by
  induction ops with
  | nil =>
    intro conn disc s _ hu _ _ n
    simp only [List.take_nil, runOps, Outcome.state, Outcome.isFatal]
    exact ⟨hu, trivial⟩
  | cons op rest ih =>
    intro conn disc s hl hu hent hsub n
    cases n with
    | zero =>
      simp only [List.take_zero, runOps, Outcome.state, Outcome.isFatal]
      exact ⟨hu, trivial⟩
    | succ n =>
      rw [List.take_succ_cons, runOps_cons]
      cases op with
      | connect sid c f =>
        simp only [lifecycle, Bool.and_eq_true, decide_eq_true_eq] at hl
        have hno : ¬ hasEntry s c := fun h => hl.1 ((hent c).mp h).1
        have hstep : (applyOp s (Op.connect sid c f)).outcome
            = .returned (s.connect sid c f).state := rfl
        rw [hstep]
        refine ih (c :: conn) disc _ hl.2 (connect_unique s sid c f hu hno) ?_ ?_ n
        · intro d
          rw [hasEntry_connect, hent d, List.mem_cons]
          constructor
          · rintro (⟨h1, h2⟩ | h)
            · exact ⟨Or.inr h1, h2⟩
            · subst h
              exact ⟨Or.inl rfl, fun hd => hl.1 (hsub _ hd)⟩
          · rintro ⟨h1 | h1, h2⟩
            · exact Or.inr h1
            · exact Or.inl ⟨h1, h2⟩
        · intro d hd
          exact List.mem_cons_of_mem _ (hsub d hd)
      | disconnect c =>
        simp only [lifecycle, Bool.and_eq_true, decide_eq_true_eq] at hl
        have hc : hasEntry s c := (hent c).mpr ⟨hl.1.1, hl.1.2⟩
        obtain ⟨j, _, _, hd⟩ := disconnect_of_entry s c hc
        have hstate : (s.disconnect c).state
            = { s with connections_ := s.connections_.eraseIdx j } := by rw [hd]; rfl
        have hstep : (applyOp s (Op.disconnect c)).outcome
            = .returned (s.disconnect c).state := by
          show s.disconnect c = _
          rw [hstate, hd]
        rw [hstep]
        refine ih conn (c :: disc) _ hl.2 (disconnect_unique s c hu) ?_ ?_ n
        · intro d
          rw [hasEntry_disconnect s c hu hc, hent d, List.mem_cons]
          constructor
          · rintro ⟨⟨h1, h2⟩, h3⟩
            exact ⟨h1, fun h => h.elim h3 h2⟩
          · rintro ⟨h1, h2⟩
            exact ⟨⟨h1, fun h => h2 (Or.inr h)⟩, fun h => h2 (Or.inl h)⟩
        · intro d hd
          rcases List.mem_cons.mp hd with h | h
          · rw [h]; exact hl.1.1
          · exact hsub d h
      | getCount =>
        exact ih conn disc s hl hu hent hsub n
      | cycle =>
        have hstep : (applyOp s Op.cycle).outcome = .returned s.runCycle.state := rfl
        rw [hstep]
        have hconn : s.runCycle.state.connections_ = s.connections_ := by
          unfold runCycle; split <;> rfl
        refine ih conn disc _ hl ?_ ?_ hsub n
        · unfold UniqueClients clients at *; rw [hconn]; exact hu
        · intro d
          rw [← hent d]
          unfold hasEntry; rw [hconn]

/-- Claim C10. The invariant that the registry holds at most one entry per
client (clients compared by address) holds in the state the constructor leaves
and is preserved by `connect(c, f)` when `c` has no entry, by `disconnect(c)`,
by `getCount` and by every cycle of `run`; hence it holds after every initial
part of a sequence of calls in which each client is connected at most once and
disconnected at most once, only after it was connected, and no assertion is
reached along such a sequence. -/
theorem unique_clients_invariant :
    UniqueClients Server.construct ∧
    (∀ (s : Server) (sid : String) (c : Client) (f : Callback),
      UniqueClients s → ¬ hasEntry s c → UniqueClients (s.connect sid c f).state) ∧
    (∀ (s : Server) (c : Client), UniqueClients s → UniqueClients (s.disconnect c).state) ∧
    (∀ s : Server, UniqueClients s → UniqueClients s.getCount.2) ∧
    (∀ s : Server, UniqueClients s → UniqueClients s.runCycle.state) ∧
    (∀ ops : List Op, lifecycle [] [] ops = true → ∀ n : Nat,
      UniqueClients (runOps Server.construct (ops.take n)).outcome.state ∧
      (runOps Server.construct (ops.take n)).outcome.isFatal = false) := by
  have h0 : UniqueClients Server.construct := by
    unfold UniqueClients clients Server.construct; exact List.nodup_nil
  refine ⟨h0, connect_unique, disconnect_unique, fun _ h => h, ?_, ?_⟩
  · intro s hu
    have hconn : s.runCycle.state.connections_ = s.connections_ := by
      unfold runCycle; split <;> rfl
    unfold UniqueClients clients at *; rw [hconn]; exact hu
  · intro ops hl n
    refine lifecycle_runOps ops [] [] Server.construct hl h0 ?_ ?_ n
    · intro d
      simp [hasEntry, Server.construct]
    · intro d hd
      exact absurd hd (List.not_mem_nil d)

/-- Claim C10 on the lifecycle of three widgets, one of them deleted. -/
theorem unique_clients_invariant_witness :
    lifecycle [] [] (detachScenario "s1" "s2" "s3") = true ∧
    UniqueClients
      (runOps Server.construct ((detachScenario "s1" "s2" "s3").take 8)).outcome.state ∧
    ¬ hasEntry twoClients 3 ∧
    UniqueClients (twoClients.connect "s3" 3 (Callback.updateData 3)).state :=
  ⟨by decide,
    (unique_clients_invariant.2.2.2.2.2 (detachScenario "s1" "s2" "s3") (by decide) 8).1,
    by decide,
    unique_clients_invariant.2.1 twoClients "s3" 3 (Callback.updateData 3)
      (by decide) (by decide)⟩

end BroadCast
